import Mathlib

/-!
Shallow embedding of `src/app_1509_2.py` (Streamlit market-analysis
competitor comparison app) and proofs about its specified behaviour.

Modelling conventions:
* a pandas cell is `Option Val` (`none` = NaN / null);
* a row of the loaded DataFrame is an association list from column name
  to cell, looked up by name (`rowGet`: `none` = column absent,
  `some none` = null cell, `some (some v)` = value `v`);
* a selectbox value is `Option Val`: `none` stands for the placeholder
  item (`"(choose)"` / `"(all)"` / `"(any)"`), `some v` for a concrete
  chosen value;
* `sorted(df[c].dropna().unique())` is `optionVals`: collect the non-null
  cells of column `c` in row order, keep first occurrences, sort.
-/

set_option autoImplicit false

namespace MarketApp

abbrev Val := String

/-- A cell of the table: `none` models a pandas NaN / null value. -/
abbrev Cell := Option Val

/-- One row of the DataFrame: column name to cell. -/
abbrev Row := List (String × Cell)

/-- Look a column up in a row. `none`: the column is absent from the row;
`some none`: the cell is null; `some (some v)`: the cell holds `v`. -/
def rowGet (r : Row) (c : String) : Option Cell :=
  (r.find? (fun p => p.1 == c)).map Prod.snd

/-- The in-memory table: ordered column names and ordered rows. -/
structure Table where
  cols : List String
  rows : List Row

/-- `df[df[c] == v]`: keep the rows whose cell at `c` equals `v`
(null cells never compare equal, as in pandas). -/
def filterEq (rows : List Row) (c : String) (v : Val) : List Row :=
  rows.filter (fun r => rowGet r c == some (some v))

/-- Code-point comparison of characters, as Python compares strings. -/
def charLt (a b : Char) : Bool := a.toNat < b.toNat

/-- Lexicographic code-point order on character lists. -/
def charsLe : List Char → List Char → Bool
  | [], _ => true
  | _ :: _, [] => false
  | a :: as, b :: bs => if charLt a b then true else if charLt b a then false else charsLe as bs

/-- Lexicographic code-point order on values, as Python's `sorted` uses. -/
def valLe (a b : Val) : Bool := charsLe a.data b.data

/-- Insert a value into a (sorted) list of values, keeping order. -/
def insertSorted (v : Val) : List Val → List Val
  | [] => [v]
  | x :: xs => if valLe v x then v :: x :: xs else x :: insertSorted v xs

/-- Insertion sort on values, modelling Python's `sorted`. -/
def sortVals : List Val → List Val
  | [] => []
  | x :: xs => insertSorted x (sortVals xs)

/-- Keep the first occurrence of each value, walking the list once with
the set of already-seen values, modelling pandas `unique()`. -/
def uniqueFirstAux (seen : List Val) : List Val → List Val
  | [] => []
  | v :: vs => if v ∈ seen then uniqueFirstAux seen vs else v :: uniqueFirstAux (v :: seen) vs

/-- Keep the first occurrence of each value, modelling pandas `unique()`. -/
def uniqueFirst (l : List Val) : List Val :=
  uniqueFirstAux [] l

/-- `sorted(df[c].dropna().unique())`: the candidate values offered by a
selectbox for column `c` over the given rows. -/
def optionVals (rows : List Row) (c : String) : List Val :=
  sortVals (uniqueFirst (rows.filterMap (fun r =>
    match rowGet r c with
    | some (some v) => some v
    | _ => none)))

/-- `get_col` (source lines 27-31): the first candidate column name
present among the table's columns, else `None`. -/
def get_col (cols : List String) (options : List String) : Option String :=
  match options with
  | [] => none
  | o :: rest => if o ∈ cols then some o else get_col cols rest

/-- The resolved semantic-role columns (source lines 39-45). -/
structure Roles where
  quarter : Option String
  year : Option String
  region : Option String
  country : Option String
  countryFlag : Option String
  brand : Option String
  brandLogo : Option String

/-- Role resolution exactly as in source lines 39-45. -/
def resolveRoles (t : Table) : Roles where
  quarter := get_col t.cols ["Quarter", "quarter"]
  year := get_col t.cols ["Year", "year"]
  region := get_col t.cols ["Region", "region"]
  country := get_col t.cols ["Country", "country"]
  countryFlag := get_col t.cols ["Country Flag", "Country_Flag", "country_flag", "CountryFlag"]
  brand := get_col t.cols ["Brand name", "Brand", "brand name", "brand"]
  brandLogo := get_col t.cols ["Brand logo", "Brand_logo", "brand_logo", "BrandLogo"]

/-- The global (shared) filter choices; `none` is the `"(all)"` item. -/
structure GSel where
  year : Option Val
  quarter : Option Val
  region : Option Val

/-- One competitor slot's choices; `none` is `"(choose)"` / `"(any)"`. -/
structure Sel where
  country : Option Val
  brand : Option Val
  year : Option Val
  quarter : Option Val

/-- Apply one optional equality filter: only when the role column is
resolved and a concrete value (not the placeholder) was chosen. -/
def applySel (rows : List Row) (col : Option String) (sel : Option Val) : List Row :=
  match col, sel with
  | some c, some v => filterEq rows c v
  | _, _ => rows

/-- Global narrowing step 1 (source lines 63-65): optional Year filter. -/
def df_g1 (t : Table) (R : Roles) (g : GSel) : List Row :=
  applySel t.rows R.year g.year

/-- Global narrowing step 2 (source lines 71-73): optional Quarter filter. -/
def df_g2 (t : Table) (R : Roles) (g : GSel) : List Row :=
  applySel (df_g1 t R g) R.quarter g.quarter

/-- Global narrowing step 3 (source lines 77-79): optional Region filter.
This is the `df` every competitor slot starts from. -/
def df_g3 (t : Table) (R : Roles) (g : GSel) : List Row :=
  applySel (df_g2 t R g) R.region g.region

/-- Country candidate list for a slot (source line 89),
computed on the globally narrowed rows. -/
def country_opts (dfG : List Row) (R : Roles) : List Val :=
  match R.country with
  | some c => optionVals dfG c
  | none => []

/-- `df_for_brand` after the optional Country filter (source lines 93-95). -/
def df_for_brand1 (dfG : List Row) (R : Roles) (sel : Sel) : List Row :=
  applySel dfG R.country sel.country

/-- Brand candidate list for a slot (source line 97): computed after the
Country filter only. -/
def brand_opts (dfG : List Row) (R : Roles) (sel : Sel) : List Val :=
  match R.brand with
  | some c => optionVals (df_for_brand1 dfG R sel) c
  | none => []

/-- Year candidate list for a slot (source line 104): computed from
`df_for_brand` after the Country filter (the Brand choice is NOT applied). -/
def year_opts (dfG : List Row) (R : Roles) (sel : Sel) : List Val :=
  match R.year with
  | some c => optionVals (df_for_brand1 dfG R sel) c
  | none => []

/-- `df_for_brand` after the optional per-slot Year filter
(source lines 106-107). -/
def df_for_brand2 (dfG : List Row) (R : Roles) (sel : Sel) : List Row :=
  match R.year with
  | some _ => applySel (df_for_brand1 dfG R sel) R.year sel.year
  | none => df_for_brand1 dfG R sel

/-- Quarter candidate list for a slot (source line 109): computed after the
Country and Year filters (the Brand choice is NOT applied). -/
def quarter_opts (dfG : List Row) (R : Roles) (sel : Sel) : List Val :=
  match R.quarter with
  | some c => optionVals (df_for_brand2 dfG R sel) c
  | none => []

/-- `df_for_brand` after the optional per-slot Quarter filter
(source lines 111-112). -/
def df_for_brand3 (dfG : List Row) (R : Roles) (sel : Sel) : List Row :=
  match R.quarter with
  | some _ => applySel (df_for_brand2 dfG R sel) R.quarter sel.quarter
  | none => df_for_brand2 dfG R sel

/-- `chosen_row` (source lines 114-119): only when a concrete Brand was
chosen, filter by it and take the first remaining row; otherwise the slot
stays at "no match" (`none`). -/
def chosen_row (dfG : List Row) (R : Roles) (sel : Sel) : Option Row :=
  match R.brand, sel.brand with
  | some c, some b => (filterEq (df_for_brand3 dfG R sel) c b).head?
  | _, _ => none

/-- The full per-slot resolution starting from the base table. -/
def resolveSlot (t : Table) (R : Roles) (g : GSel) (sel : Sel) : Option Row :=
  chosen_row (df_g3 t R g) R sel

/-- The missing-value sentinel used by the comparison table. -/
def missing_sentinel : Val := "-"

/-- `get_val` (source lines 175-180): the cell value from a slot's
resolved row when the column is present and the cell non-null, else `"-"`.
`s = none` models `row.empty` (the slot has no matched row). -/
def get_val (s : Option Row) (col_name : String) : Val :=
  match s with
  | none => missing_sentinel
  | some r =>
    match rowGet r col_name with
    | some (some v) => v
    | _ => missing_sentinel

/-- What a comparison-table cell renders to, at the public interface. -/
inductive CellRender where
  | image : Val → CellRender
  | text : Val → CellRender
deriving DecidableEq, Repr

/-- Rendering of one cell (source lines 206-220): for the flag/logo
columns an image is attempted exactly when the assembled value is not the
sentinel; other columns render the assembled value as text. -/
def render_cell (isImageCol : Bool) (s : Option Row) (col_name : String) : CellRender :=
  if isImageCol then
    if get_val s col_name ≠ missing_sentinel then .image (get_val s col_name)
    else .text missing_sentinel
  else .text (get_val s col_name)

/-- `preserve_cols` (source line 48): the seven resolved role columns
(possibly `None`), removed from the remaining-column list. -/
def preserve_cols (R : Roles) : List (Option String) :=
  [R.quarter, R.year, R.region, R.country, R.countryFlag, R.brand, R.brandLogo]

/-- `remaining_cols` (source line 49): the table columns not resolved to
any of the seven semantic roles, in original order. -/
def remaining_cols (t : Table) (R : Roles) : List String :=
  t.cols.filter (fun c => ¬ (some c ∈ preserve_cols R))

/-- Append a (column, label) pair when the role column is resolved. -/
def roleParam (col : Option String) (label : String) : List (String × String) :=
  match col with
  | some c => [(c, label)]
  | none => []

/-- `ordered_params` (source lines 183-199): the Comparison Parameter
List, pairs of column name and display label. -/
def ordered_params (t : Table) (R : Roles) : List (String × String) :=
  roleParam R.country "Country" ++ roleParam R.countryFlag "Country Flag" ++
    roleParam R.brand "Brand" ++ roleParam R.brandLogo "Brand logo" ++
    (remaining_cols t R).map (fun c => (c, c))

/-- The export label of slot `i` (source line 226): the chosen brand, or
`Competitor_{i+1}` when Brand is unset. -/
def exportLabel (i : Nat) (sel : Sel) : String :=
  match sel.brand with
  | some b => b
  | none => "Competitor_" ++ toString (i + 1)

/-- Field names one slot contributes to the export (source lines 225-230):
a matched row is a one-row slice of `df`, so its columns are the table's
columns, each prefixed with the slot's label; an unmatched slot
contributes nothing. -/
def exportFieldsSlot (t : Table) (i : Nat) (sel : Sel) (row : Option Row) : List String :=
  match row with
  | some _ => t.cols.map (fun c => exportLabel i sel ++ " - " ++ c)
  | none => []

/-- Field names of the whole export, slots taken in order starting at
index `i` (source lines 224-230, `axis=1` concatenation). -/
def exportFieldsAux (t : Table) (i : Nat) : List (Sel × Option Row) → List String
  | [] => []
  | (sel, r) :: rest => exportFieldsSlot t i sel r ++ exportFieldsAux t (i + 1) rest

/-- Labels of the matched slots, in slot order starting at index `i`. -/
def matchedLabels (i : Nat) : List (Sel × Option Row) → List String
  | [] => []
  | (sel, some _) :: rest => exportLabel i sel :: matchedLabels (i + 1) rest
  | (_, none) :: rest => matchedLabels (i + 1) rest

/-- The outcome of one interaction cycle of the main area. -/
inductive Output where
  | insufficient : Output
  | comparison : List (String × String) → List String → Output
deriving DecidableEq

/-- `valid_rows` (source line 134): the slots whose resolved row is
non-empty. -/
def valid_rows (slots : List (Sel × Option Row)) : List (Sel × Option Row) :=
  slots.filter (fun p => p.2.isSome)

/-- The main comparison flow (source lines 133-233): resolve every slot,
halt with a warning when fewer than two slots matched, otherwise render
the comparison table and the export. -/
def run_app (t : Table) (g : GSel) (sels : List Sel) : Output :=
  let R := resolveRoles t
  let slots := sels.map (fun sel => (sel, resolveSlot t R g sel))
  if (valid_rows slots).length < 2 then .insufficient
  else .comparison (ordered_params t R) (exportFieldsAux t 0 slots)

/-- One optional equality filter as a row predicate: trivially true when
the role column is unresolved or the placeholder was chosen. -/
def matchOpt (col : Option String) (s : Option Val) (r : Row) : Bool :=
  match col, s with
  | some c, some v => rowGet r c == some (some v)
  | _, _ => true

/-- The conjunction of every equality filter of the cascade (global Year,
Quarter, Region, then the slot's Country, Year, Quarter, Brand). -/
def cascadePred (R : Roles) (g : GSel) (sel : Sel) (r : Row) : Bool :=
  matchOpt R.year g.year r && matchOpt R.quarter g.quarter r &&
    matchOpt R.region g.region r && matchOpt R.country sel.country r &&
    matchOpt R.year sel.year r && matchOpt R.quarter sel.quarter r &&
    matchOpt R.brand sel.brand r

/-- Follows the claim's words, for comparison with `year_opts`: the Year
candidate list as computed from the table state after ALL prior filters
of the claimed sequence Country, then Brand (the source computes it
before the Brand filter). -/
def year_opts_claimed (dfG : List Row) (R : Roles) (sel : Sel) : List Val :=
  match R.year with
  | some c => optionVals (applySel (df_for_brand1 dfG R sel) R.brand sel.brand) c
  | none => []

/-- Follows the claim's words, for comparison with `ordered_params`: the
four resolved role columns first, then ALL remaining table columns (all
those not among the four), in original order (the source also drops the
resolved Year, Quarter and Region columns). -/
def ordered_params_claimed (t : Table) (R : Roles) : List (String × String) :=
  roleParam R.country "Country" ++ roleParam R.countryFlag "Country Flag" ++
    roleParam R.brand "Brand" ++ roleParam R.brandLogo "Brand logo" ++
    (t.cols.filter (fun c =>
      ¬ (some c ∈ [R.country, R.countryFlag, R.brand, R.brandLogo]))).map (fun c => (c, c))

/-! Concrete instances used by counterexamples and witnesses. -/

/-- A demo row: USA / Acme / 2023. -/
def rowUA : Row := [("Country", some "USA"), ("Brand name", some "Acme"), ("Year", some "2023")]

/-- A demo row: USA / Globex / 2024. -/
def rowUG : Row := [("Country", some "USA"), ("Brand name", some "Globex"), ("Year", some "2024")]

/-- A demo table with Country, Brand and Year columns. -/
def tDemo : Table := ⟨["Country", "Brand name", "Year"], [rowUA, rowUG]⟩

/-- The roles resolved on the demo table. -/
def RDemo : Roles := resolveRoles tDemo

/-- No global narrowing: every global selectbox at `"(all)"`. -/
def gAll : GSel := ⟨none, none, none⟩

/-- Slot choices USA / Acme, Year and Quarter at `"(any)"`. -/
def selUA : Sel := ⟨some "USA", some "Acme", none, none⟩

/-- Slot choices USA / Globex. -/
def selUG : Sel := ⟨some "USA", some "Globex", none, none⟩

/-- Brand chosen but Country left at `"(choose)"`. -/
def selOnlyBrand : Sel := ⟨none, some "Acme", none, none⟩

/-! Helper lemmas. -/

theorem mem_insertSorted (v x : Val) (l : List Val) :
    x ∈ insertSorted v l ↔ x = v ∨ x ∈ l := by
  induction l with
  | nil => simp [insertSorted]
  | cons y ys ih =>
    by_cases h : valLe v y
    · simp [insertSorted, h]
    · simp [insertSorted, h, ih]
      tauto

theorem mem_sortVals (x : Val) (l : List Val) : x ∈ sortVals l ↔ x ∈ l := by
  induction l with
  | nil => simp [sortVals]
  | cons y ys ih => simp [sortVals, mem_insertSorted, ih]

theorem mem_uniqueFirstAux (x : Val) (l : List Val) :
    ∀ seen, x ∈ uniqueFirstAux seen l ↔ x ∈ l ∧ x ∉ seen := by
  induction l with
  | nil => intro seen; simp [uniqueFirstAux]
  | cons v vs ih =>
    intro seen
    by_cases hv : v ∈ seen
    · rw [uniqueFirstAux, if_pos hv, ih, List.mem_cons]
      constructor
      · rintro ⟨h1, h2⟩; exact ⟨Or.inr h1, h2⟩
      · rintro ⟨h1 | h1, h2⟩
        · exact absurd (h1 ▸ hv) h2
        · exact ⟨h1, h2⟩
    · rw [uniqueFirstAux, if_neg hv, List.mem_cons, ih, List.mem_cons, List.mem_cons]
      by_cases hxv : x = v <;> simp [hxv, hv]

theorem mem_uniqueFirst (x : Val) (l : List Val) : x ∈ uniqueFirst l ↔ x ∈ l := by
  rw [uniqueFirst, mem_uniqueFirstAux]
  simp

theorem mem_optionVals (rows : List Row) (c : String) (x : Val) :
    x ∈ optionVals rows c ↔ ∃ r ∈ rows, rowGet r c = some (some x) := by
  rw [optionVals, mem_sortVals, mem_uniqueFirst, List.mem_filterMap]
  constructor
  · rintro ⟨r, hr, hx⟩
    refine ⟨r, hr, ?_⟩
    rcases h : rowGet r c with _ | c'
    · simp [h] at hx
    · rcases c' with _ | v
      · simp [h] at hx
      · simp [h] at hx; simp [h, hx]
  · rintro ⟨r, hr, hx⟩
    exact ⟨r, hr, by simp [hx]⟩

theorem optionVals_mono {rows' rows : List Row} (c : String)
    (h : rows'.Sublist rows) {v : Val} (hv : v ∈ optionVals rows' c) :
    v ∈ optionVals rows c := by
  rw [mem_optionVals] at hv ⊢
  rcases hv with ⟨r, hr, hrc⟩
  exact ⟨r, h.subset hr, hrc⟩

theorem filterEq_sublist (rows : List Row) (c : String) (v : Val) :
    (filterEq rows c v).Sublist rows :=
  List.filter_sublist rows

theorem applySel_sublist (rows : List Row) (col : Option String) (s : Option Val) :
    (applySel rows col s).Sublist rows := by
  cases col with
  | none => simp [applySel]
  | some c =>
    cases s with
    | none => simp [applySel]
    | some v => exact filterEq_sublist rows c v

theorem head?_filter {α : Type} (p : α → Bool) (l : List α) :
    (l.filter p).head? = l.find? p := by
  induction l with
  | nil => rfl
  | cons x xs ih =>
    by_cases h : p x <;> simp [List.filter_cons, List.find?_cons, h, ih]

theorem get_col_eq_find? (cols options : List String) :
    get_col cols options = options.find? (fun o => decide (o ∈ cols)) := by
  induction options with
  | nil => rfl
  | cons o rest ih =>
    by_cases h : o ∈ cols <;> simp [get_col, List.find?_cons, h, ih]

theorem get_col_some (cols options : List String) (c : String)
    (h : get_col cols options = some c) : c ∈ cols ∧ c ∈ options := by
  induction options with
  | nil => simp [get_col] at h
  | cons o rest ih =>
    rw [get_col] at h
    by_cases ho : o ∈ cols
    · simp [ho] at h
      exact ⟨h ▸ ho, by simp [h]⟩
    · simp [ho] at h
      rcases ih h with ⟨h1, h2⟩
      exact ⟨h1, by simp [h2]⟩

theorem get_col_none (cols options : List String) :
    get_col cols options = none ↔ ∀ o ∈ options, o ∉ cols := by
  induction options with
  | nil => simp [get_col]
  | cons o rest ih =>
    rw [get_col]
    by_cases ho : o ∈ cols
    · simp only [ho, if_true]
      constructor
      · intro h; cases h
      · intro h; exact absurd ho (h o (by simp))
    · simp only [ho, if_false, ih]
      constructor
      · intro h x hx
        rcases List.mem_cons.mp hx with hx | hx
        · exact hx ▸ ho
        · exact h x hx
      · intro h x hx
        exact h x (List.mem_cons_of_mem _ hx)

theorem get_col_first (cols options : List String) (c : String)
    (h : get_col cols options = some c) :
    ∃ pre post, options = pre ++ c :: post ∧ ∀ o ∈ pre, o ∉ cols := by
  induction options with
  | nil => simp [get_col] at h
  | cons o rest ih =>
    rw [get_col] at h
    by_cases ho : o ∈ cols
    · simp [ho] at h
      exact ⟨[], rest, by simp [h], by simp⟩
    · simp [ho] at h
      rcases ih h with ⟨pre, post, heq, hpre⟩
      refine ⟨o :: pre, post, by simp [heq], ?_⟩
      intro x hx
      rcases List.mem_cons.mp hx with hx | hx
      · exact hx ▸ ho
      · exact hpre x hx

theorem matchOpt_none_left (s : Option Val) (r : Row) : matchOpt none s r = true := by
  cases s <;> rfl

theorem matchOpt_some_none (c : String) (r : Row) : matchOpt (some c) none r = true := rfl

theorem filter_matchOpt_none (s : Option Val) (rows : List Row) :
    rows.filter (matchOpt none s) = rows := by
  have h : matchOpt none s = fun _ => true := funext fun r => matchOpt_none_left s r
  rw [h, List.filter_true]

theorem filter_matchOpt_some_none (c : String) (rows : List Row) :
    rows.filter (matchOpt (some c) none) = rows := by
  have h : matchOpt (some c) none = fun _ => true := funext fun r => rfl
  rw [h, List.filter_true]

theorem applySel_eq_filter (rows : List Row) (col : Option String) (s : Option Val) :
    applySel rows col s = rows.filter (matchOpt col s) := by
  cases col with
  | none => rw [filter_matchOpt_none]; rfl
  | some c =>
    cases s with
    | none => rw [filter_matchOpt_some_none]; rfl
    | some v => rfl

theorem df_for_brand2_eq_filter (dfG : List Row) (R : Roles) (sel : Sel) :
    df_for_brand2 dfG R sel = (df_for_brand1 dfG R sel).filter (matchOpt R.year sel.year) := by
  cases hy : R.year with
  | none => rw [df_for_brand2, hy, filter_matchOpt_none]
  | some c => simp only [df_for_brand2, hy, applySel_eq_filter]

theorem df_for_brand3_eq_filter (dfG : List Row) (R : Roles) (sel : Sel) :
    df_for_brand3 dfG R sel = (df_for_brand2 dfG R sel).filter (matchOpt R.quarter sel.quarter) := by
  cases hq : R.quarter with
  | none => rw [df_for_brand3, hq, filter_matchOpt_none]
  | some c => simp only [df_for_brand3, hq, applySel_eq_filter]

/-! Claim theorems. -/

/-- Claim C8: the Column Resolver returns the first accepted name variant
(per the role's priority list) present among the table's columns, or
`none` when no variant is present; it is a deterministic pure function of
the column-name set, and the roles are resolved independently of one
another (role resolution depends on the table only through its column
names). -/
theorem c8_column_resolver (cols options : List String) :
    get_col cols options = options.find? (fun o => decide (o ∈ cols))
    ∧ (get_col cols options = none ↔ ∀ o ∈ options, o ∉ cols)
    ∧ (∀ c, get_col cols options = some c →
        c ∈ cols ∧ ∃ pre post, options = pre ++ c :: post ∧ ∀ o ∈ pre, o ∉ cols)
    ∧ (∀ t t' : Table, t.cols = t'.cols → resolveRoles t = resolveRoles t') := by
  refine ⟨get_col_eq_find? cols options, get_col_none cols options, ?_, ?_⟩
  · intro c hc
    exact ⟨(get_col_some cols options c hc).1, get_col_first cols options c hc⟩
  · intro t t' h
    simp [resolveRoles, h]

/-- Witness for C8 on the demo table: `"Brand name"` is the first brand
variant present, and resolution only looks at the column names. -/
theorem c8_column_resolver_witness :
    (get_col ["Country", "Brand name", "Year"] ["Brand name", "Brand", "brand name", "brand"] =
      ["Brand name", "Brand", "brand name", "brand"].find?
        (fun o => decide (o ∈ ["Country", "Brand name", "Year"])))
    ∧ ("Brand name" ∈ ["Country", "Brand name", "Year"]
        ∧ ∃ pre post, ["Brand name", "Brand", "brand name", "brand"] = pre ++ "Brand name" :: post
            ∧ ∀ o ∈ pre, o ∉ ["Country", "Brand name", "Year"])
    ∧ resolveRoles tDemo = resolveRoles ⟨tDemo.cols, []⟩ := by
  have h := c8_column_resolver ["Country", "Brand name", "Year"]
    ["Brand name", "Brand", "brand name", "brand"]
  exact ⟨h.1, h.2.2.1 "Brand name" (by decide), h.2.2.2 tDemo ⟨tDemo.cols, []⟩ rfl⟩

/-- Claim C1 is false on the code: a slot whose Country is left at
`"(choose)"` but whose Brand is chosen still resolves to a matched row
(the source only guards on `sel_brand`, lines 114-119). -/
theorem c1_counterexample :
    selOnlyBrand.country = none
    ∧ resolveSlot tDemo RDemo gAll selOnlyBrand = some rowUA := by
  exact ⟨rfl, by decide⟩

/-- Claim C1 (amended): a slot whose Brand selection is left at
`"(choose)"` never resolves to a matched row, regardless of every other
filter; leaving only Country unset does not by itself prevent a match. -/
theorem c1_amended (dfG : List Row) (R : Roles) (sel : Sel) (h : sel.brand = none) :
    chosen_row dfG R sel = none
    ∧ ∀ (t : Table) (g : GSel), resolveSlot t R g sel = none := by
  constructor
  · rw [chosen_row, h]; cases R.brand <;> rfl
  · intro t g; rw [resolveSlot, chosen_row, h]; cases R.brand <;> rfl

/-- Witness for the amended C1 at a concrete slot with Brand unset. -/
theorem c1_amended_witness :
    (Sel.mk (some "USA") none none none).brand = none
    ∧ chosen_row tDemo.rows RDemo ⟨some "USA", none, none, none⟩ = none :=
  ⟨rfl, (c1_amended tDemo.rows RDemo ⟨some "USA", none, none, none⟩ rfl).1⟩

/-- Claim C6: the assembled value is the cell value of the competitor's
resolved row when the column is present and the cell non-null, and the
`"-"` sentinel otherwise (no matched row, absent column, or null cell);
the sentinel is not the empty string, and a genuine empty-string cell
yields `""`, which stays distinct from the sentinel. -/
theorem c6_assembler_values (s : Option Row) (c : String) :
    (∀ r v, s = some r → rowGet r c = some (some v) → get_val s c = v)
    ∧ (s = none → get_val s c = missing_sentinel)
    ∧ (∀ r, s = some r → rowGet r c = none → get_val s c = missing_sentinel)
    ∧ (∀ r, s = some r → rowGet r c = some none → get_val s c = missing_sentinel)
    ∧ missing_sentinel ≠ ""
    ∧ (∀ r, s = some r → rowGet r c = some (some "") →
        get_val s c = "" ∧ get_val s c ≠ missing_sentinel) := by
  refine ⟨?_, ?_, ?_, ?_, by decide, ?_⟩
  · rintro r v rfl h; simp [get_val, h]
  · rintro rfl; rfl
  · rintro r rfl h; simp [get_val, h]
  · rintro r rfl h; simp [get_val, h]
  · rintro r rfl h; refine ⟨by simp [get_val, h], by simp [get_val, h, missing_sentinel]⟩

/-- Witness for C6 on the demo row: present cell, no row, absent column. -/
theorem c6_assembler_values_witness :
    get_val (some rowUA) "Country" = "USA"
    ∧ get_val none "Country" = missing_sentinel
    ∧ get_val (some rowUA) "Price" = missing_sentinel
    ∧ missing_sentinel ≠ "" := by
  refine ⟨?_, ?_, ?_, ?_⟩
  · exact (c6_assembler_values (some rowUA) "Country").1 rowUA "USA" rfl (by decide)
  · exact (c6_assembler_values none "Country").2.1 rfl
  · exact (c6_assembler_values (some rowUA) "Price").2.2.1 rowUA rfl (by decide)
  · exact (c6_assembler_values (some rowUA) "Country").2.2.2.2.1

/-- Claim C10: a cell that stores the literal string `"-"` is assembled
and rendered exactly like a missing value: `get_val` returns the sentinel
(the same output as for no matched row, an absent column, or a null
cell), and the image columns do not attempt to render it as an image. -/
theorem c10_dash_indistinguishable (r : Row) (c : String)
    (h : rowGet r c = some (some "-")) :
    get_val (some r) c = missing_sentinel
    ∧ get_val (some r) c = get_val none c
    ∧ (∀ (r' : Row) (c' : String), rowGet r' c' = none →
        get_val (some r) c = get_val (some r') c')
    ∧ (∀ (r' : Row) (c' : String), rowGet r' c' = some none →
        get_val (some r) c = get_val (some r') c')
    ∧ render_cell true (some r) c = render_cell true none c
    ∧ render_cell false (some r) c = render_cell false none c := by
  have hv : get_val (some r) c = missing_sentinel := by
    simp [get_val, h, missing_sentinel]
  refine ⟨hv, by rw [hv]; rfl, ?_, ?_, ?_, ?_⟩
  · intro r' c' h'; rw [hv]; simp [get_val, h']
  · intro r' c' h'; rw [hv]; simp [get_val, h']
  · simp [render_cell, hv]; rfl
  · simp [render_cell, hv]; rfl

/-- Witness for C10 at a concrete row whose cell holds `"-"`. -/
theorem c10_dash_indistinguishable_witness :
    rowGet [("Country Flag", some "-")] "Country Flag" = some (some "-")
    ∧ get_val (some [("Country Flag", some "-")]) "Country Flag" = missing_sentinel
    ∧ render_cell true (some [("Country Flag", some "-")]) "Country Flag" =
        render_cell true none "Country Flag" := by
  have h := c10_dash_indistinguishable [("Country Flag", some "-")] "Country Flag" (by decide)
  exact ⟨by decide, h.1, h.2.2.2.2.1⟩

theorem resolveSlot_eq_filter (t : Table) (R : Roles) (g : GSel) (sel : Sel)
    (cb : String) (b : Val) (hrb : R.brand = some cb) (hsb : sel.brand = some b) :
    resolveSlot t R g sel = (t.rows.filter (cascadePred R g sel)).head? := by
  have hbrand : filterEq (df_for_brand3 (df_g3 t R g) R sel) cb b
      = (df_for_brand3 (df_g3 t R g) R sel).filter (matchOpt R.brand sel.brand) := by
    rw [hrb, hsb]; rfl
  have hchain : filterEq (df_for_brand3 (df_g3 t R g) R sel) cb b
      = t.rows.filter (cascadePred R g sel) := by
    rw [hbrand, df_for_brand3_eq_filter, df_for_brand2_eq_filter, df_for_brand1,
      applySel_eq_filter, df_g3, applySel_eq_filter, df_g2, applySel_eq_filter,
      df_g1, applySel_eq_filter, List.filter_filter, List.filter_filter,
      List.filter_filter, List.filter_filter, List.filter_filter, List.filter_filter]
    refine List.filter_congr (fun r _ => ?_)
    simp only [cascadePred, Bool.and_assoc, Bool.and_comm, Bool.and_left_comm]
  have hres : resolveSlot t R g sel = (filterEq (df_for_brand3 (df_g3 t R g) R sel) cb b).head? := by
    simp only [resolveSlot, chosen_row, hrb, hsb]
  rw [hres, hchain]

/-- Claim C4: once a concrete Brand is chosen (so the Brand filter of the
cascade applies), the slot resolves to the FIRST row, in original table
order, that satisfies every global and per-slot equality filter: `none`
when no row survives, the unique row when exactly one survives, and the
first surviving row when several do. -/
theorem c4_row_selection (t : Table) (R : Roles) (g : GSel) (sel : Sel)
    (cb : String) (b : Val) (hrb : R.brand = some cb) (hsb : sel.brand = some b) :
    resolveSlot t R g sel = t.rows.find? (cascadePred R g sel)
    ∧ resolveSlot t R g sel = (t.rows.filter (cascadePred R g sel)).head?
    ∧ (t.rows.filter (cascadePred R g sel) = [] → resolveSlot t R g sel = none)
    ∧ (∀ r rest, t.rows.filter (cascadePred R g sel) = r :: rest →
        resolveSlot t R g sel = some r) := by
  have key := resolveSlot_eq_filter t R g sel cb b hrb hsb
  refine ⟨?_, key, ?_, ?_⟩
  · rw [key, head?_filter]
  · intro h; rw [key, h]; rfl
  · intro r rest h; rw [key, h]; rfl

/-- Witness for C4 on the demo table: two USA rows differ only in Brand
and Year; with no Year filter the Acme slot resolves to the first
matching row in table order. -/
theorem c4_row_selection_witness :
    resolveSlot tDemo RDemo gAll selUA = tDemo.rows.find? (cascadePred RDemo gAll selUA)
    ∧ resolveSlot tDemo RDemo gAll selUA = some rowUA := by
  have h := c4_row_selection tDemo RDemo gAll selUA "Brand name" "Acme" (by decide) rfl
  exact ⟨h.1, by decide⟩

/-- Claim C9: cascade narrowing is monotone: every stage of the global and
per-slot cascade only removes rows (each stage's view is a sublist of the
previous stage's), and the candidate-value list of any column computed on
a narrowed view is contained in the one computed on any earlier view. -/
theorem c9_cascade_monotone (t : Table) (R : Roles) (g : GSel) (sel : Sel) :
    (df_g1 t R g).Sublist t.rows
    ∧ (df_g2 t R g).Sublist (df_g1 t R g)
    ∧ (df_g3 t R g).Sublist (df_g2 t R g)
    ∧ (df_for_brand1 (df_g3 t R g) R sel).Sublist (df_g3 t R g)
    ∧ (df_for_brand2 (df_g3 t R g) R sel).Sublist (df_for_brand1 (df_g3 t R g) R sel)
    ∧ (df_for_brand3 (df_g3 t R g) R sel).Sublist (df_for_brand2 (df_g3 t R g) R sel)
    ∧ (∀ cb bv, (filterEq (df_for_brand3 (df_g3 t R g) R sel) cb bv).Sublist
        (df_for_brand3 (df_g3 t R g) R sel))
    ∧ (∀ (rows rows' : List Row) (c : String), rows'.Sublist rows →
        ∀ v ∈ optionVals rows' c, v ∈ optionVals rows c) := by
  refine ⟨applySel_sublist _ _ _, applySel_sublist _ _ _, applySel_sublist _ _ _,
    applySel_sublist _ _ _, ?_, ?_, ?_, ?_⟩
  · rw [df_for_brand2_eq_filter]; exact List.filter_sublist _
  · rw [df_for_brand3_eq_filter]; exact List.filter_sublist _
  · intro cb bv; exact filterEq_sublist _ _ _
  · intro rows rows' c h v hv; exact optionVals_mono c h hv

/-- Witness for C9 on the demo table. -/
theorem c9_cascade_monotone_witness :
    (df_g1 tDemo RDemo gAll).Sublist tDemo.rows
    ∧ "2023" ∈ optionVals tDemo.rows "Year" := by
  have h := c9_cascade_monotone tDemo RDemo gAll selUA
  refine ⟨h.1, h.2.2.2.2.2.2.2 tDemo.rows (df_g1 tDemo RDemo gAll) "Year" h.1 "2023" ?_⟩
  decide

/-- Claim C7: whenever fewer than two slots resolve to a matched row the
main flow reports the insufficient-selection warning and produces neither
a comparison table nor an export; with two or more matched rows it
produces both. -/
theorem c7_insufficient (t : Table) (g : GSel) (sels : List Sel) :
    ((valid_rows (sels.map (fun sel => (sel, resolveSlot t (resolveRoles t) g sel)))).length < 2 →
      run_app t g sels = Output.insufficient)
    ∧ (2 ≤ (valid_rows (sels.map (fun sel => (sel, resolveSlot t (resolveRoles t) g sel)))).length →
      run_app t g sels = Output.comparison (ordered_params t (resolveRoles t))
        (exportFieldsAux t 0 (sels.map (fun sel => (sel, resolveSlot t (resolveRoles t) g sel))))) := by
  constructor
  · intro h
    simp only [run_app]
    rw [if_pos h]
  · intro h
    simp only [run_app]
    rw [if_neg (by omega)]

/-- Witness for C7: a single matched slot halts at the warning; two
matched slots render the comparison and the export. -/
theorem c7_insufficient_witness :
    run_app tDemo gAll [selUA] = Output.insufficient
    ∧ run_app tDemo gAll [selUA, selUG] =
        Output.comparison (ordered_params tDemo (resolveRoles tDemo))
          (exportFieldsAux tDemo 0 ([selUA, selUG].map
            (fun sel => (sel, resolveSlot tDemo (resolveRoles tDemo) gAll sel)))) := by
  exact ⟨(c7_insufficient tDemo gAll [selUA]).1 (by decide),
    (c7_insufficient tDemo gAll [selUA, selUG]).2 (by decide)⟩

theorem df_for_brand1_congr (dfG : List Row) (R : Roles) (sel₁ sel₂ : Sel)
    (h : sel₁.country = sel₂.country) :
    df_for_brand1 dfG R sel₁ = df_for_brand1 dfG R sel₂ := by
  rw [df_for_brand1, df_for_brand1, h]

theorem df_for_brand2_congr (dfG : List Row) (R : Roles) (sel₁ sel₂ : Sel)
    (hc : sel₁.country = sel₂.country) (hy : sel₁.year = sel₂.year) :
    df_for_brand2 dfG R sel₁ = df_for_brand2 dfG R sel₂ := by
  rw [df_for_brand2, df_for_brand2, df_for_brand1_congr dfG R sel₁ sel₂ hc, hy]

/-- Claim C3 is false on the code: on the demo table (USA/Acme/2023 and
USA/Globex/2024), with Country = USA and Brand = Acme chosen, the Year
candidate list the code offers still contains Globex's 2024 — it is
computed BEFORE the Brand filter, not after all prior filters of the
claimed Country-Brand-Year-Quarter sequence. -/
theorem c3_counterexample :
    year_opts (df_g3 tDemo RDemo gAll) RDemo selUA = ["2023", "2024"]
    ∧ year_opts_claimed (df_g3 tDemo RDemo gAll) RDemo selUA = ["2023"]
    ∧ year_opts (df_g3 tDemo RDemo gAll) RDemo selUA ≠
        year_opts_claimed (df_g3 tDemo RDemo gAll) RDemo selUA := by
  exact ⟨by decide, by decide, by decide⟩

/-- Claim C3 (amended): per-competitor narrowing applies Country first;
the Brand candidate list is computed after the Country filter; the Year
candidate list is computed after the Country filter but independently of
the Brand choice; the Quarter candidate list is computed after the
Country and Year filters but independently of the Brand choice; the
Brand equality filter is applied only at the end, when the slot's row is
resolved. -/
theorem c3_amended (dfG : List Row) (R : Roles) (sel₁ sel₂ : Sel) :
    (∀ c, R.brand = some c → ∀ b, b ∈ brand_opts dfG R sel₁ ↔
        ∃ r ∈ df_for_brand1 dfG R sel₁, rowGet r c = some (some b))
    ∧ (∀ c, R.year = some c → ∀ v, v ∈ year_opts dfG R sel₁ ↔
        ∃ r ∈ df_for_brand1 dfG R sel₁, rowGet r c = some (some v))
    ∧ (∀ c, R.quarter = some c → ∀ v, v ∈ quarter_opts dfG R sel₁ ↔
        ∃ r ∈ df_for_brand2 dfG R sel₁, rowGet r c = some (some v))
    ∧ (sel₁.country = sel₂.country →
        brand_opts dfG R sel₁ = brand_opts dfG R sel₂
        ∧ year_opts dfG R sel₁ = year_opts dfG R sel₂)
    ∧ (sel₁.country = sel₂.country → sel₁.year = sel₂.year →
        quarter_opts dfG R sel₁ = quarter_opts dfG R sel₂)
    ∧ (∀ cb b, R.brand = some cb → sel₁.brand = some b →
        chosen_row dfG R sel₁ = (filterEq (df_for_brand3 dfG R sel₁) cb b).head?) := by
  refine ⟨?_, ?_, ?_, ?_, ?_, ?_⟩
  · intro c hc b; rw [brand_opts, hc, mem_optionVals]
  · intro c hc v; rw [year_opts, hc, mem_optionVals]
  · intro c hc v; rw [quarter_opts, hc, mem_optionVals]
  · intro h
    have h1 := df_for_brand1_congr dfG R sel₁ sel₂ h
    constructor
    · rw [brand_opts, brand_opts, h1]
    · rw [year_opts, year_opts, h1]
  · intro hc hy
    rw [quarter_opts, quarter_opts, df_for_brand2_congr dfG R sel₁ sel₂ hc hy]
  · intro cb b hcb hsb
    simp only [chosen_row, hcb, hsb]

/-- Witness for the amended C3: the Year list is unchanged when only the
Brand choice differs, and 2024 is offered because a row (Globex's)
survives the Country filter. -/
theorem c3_amended_witness :
    year_opts (df_g3 tDemo RDemo gAll) RDemo selUA =
      year_opts (df_g3 tDemo RDemo gAll) RDemo selUG
    ∧ "2024" ∈ year_opts (df_g3 tDemo RDemo gAll) RDemo selUA := by
  have h := c3_amended (df_g3 tDemo RDemo gAll) RDemo selUA selUG
  refine ⟨(h.2.2.2.1 rfl).2, ?_⟩
  exact (h.2.1 "Year" (by decide) "2024").mpr ⟨rowUG, by decide, by decide⟩

theorem map_fst_roleParam (o : Option String) (lab : String) :
    (roleParam o lab).map Prod.fst = o.toList := by
  cases o <;> rfl

theorem map_fst_ordered_params (t : Table) (R : Roles) :
    (ordered_params t R).map Prod.fst =
      R.country.toList ++ R.countryFlag.toList ++ R.brand.toList ++ R.brandLogo.toList
        ++ remaining_cols t R := by
  simp only [ordered_params, List.map_append, map_fst_roleParam, List.map_map]
  have hrem : (remaining_cols t R).map (Prod.fst ∘ fun c => (c, c)) = remaining_cols t R :=
    List.map_id _
  rw [List.append_assoc, List.append_assoc, List.append_assoc] at *
  simp only [Function.comp] at hrem ⊢
  rw [hrem]
  simp [List.append_assoc]

theorem variant_ne {cols : List String} {x y : String} {o1 o2 : List String}
    (h1 : get_col cols o1 = some x) (h2 : get_col cols o2 = some y)
    (hd : ∀ a ∈ o1, a ∉ o2) : x ≠ y := by
  intro he
  exact hd x (get_col_some _ _ _ h1).2 (he ▸ (get_col_some _ _ _ h2).2)

theorem not_mem_remaining (t : Table) (R : Roles) (x : String)
    (hx : some x ∈ preserve_cols R) : x ∉ remaining_cols t R := by
  intro hmem
  rw [remaining_cols, List.mem_filter] at hmem
  have h2 : ¬ (some x ∈ preserve_cols R) := by simpa using hmem.2
  exact h2 hx

theorem nodup_optHead (o : Option String) (rest : List String)
    (h : rest.Nodup) (ho : ∀ x, o = some x → x ∉ rest) :
    (o.toList ++ rest).Nodup := by
  cases o with
  | none => simpa using h
  | some c => simpa using ⟨ho c rfl, h⟩

/-- Claim C5 is false on the code: the demo table's Year column is
neither among the four role columns placed first nor among the columns
that follow them — the code removes the resolved Year, Quarter and
Region columns from the list entirely, so the list does not hold "all
remaining table columns". -/
theorem c5_counterexample :
    "Year" ∈ tDemo.cols
    ∧ ¬ some "Year" ∈ [RDemo.country, RDemo.countryFlag, RDemo.brand, RDemo.brandLogo]
    ∧ "Year" ∉ (ordered_params tDemo RDemo).map Prod.fst
    ∧ ordered_params tDemo RDemo ≠ ordered_params_claimed tDemo RDemo := by
  exact ⟨by decide, by decide, by decide, by decide⟩

/-- Claim C5 (amended): the Comparison Parameter List places the four
resolved role columns first in the fixed order Country, CountryFlagAsset,
Brand, BrandLogoAsset, followed, in original table order, by the table
columns not resolved to ANY of the seven semantic roles (the resolved
Year, Quarter and Region columns are omitted from the list entirely); no
column appears twice, and every listed column is a table column. -/
theorem c5_amended (t : Table) (h : t.cols.Nodup) :
    ((ordered_params t (resolveRoles t)).map Prod.fst).Nodup
    ∧ (∀ c ∈ (ordered_params t (resolveRoles t)).map Prod.fst, c ∈ t.cols)
    ∧ (ordered_params t (resolveRoles t)).map Prod.fst =
        (resolveRoles t).country.toList ++ (resolveRoles t).countryFlag.toList
          ++ (resolveRoles t).brand.toList ++ (resolveRoles t).brandLogo.toList
          ++ remaining_cols t (resolveRoles t) := by
  have hrem : (remaining_cols t (resolveRoles t)).Nodup := List.Nodup.filter _ h
  have hremcols : ∀ c ∈ remaining_cols t (resolveRoles t), c ∈ t.cols :=
    fun c hc => List.mem_of_mem_filter hc
  have hco : ∀ x, (resolveRoles t).country = some x → x ∈ ["Country", "country"] :=
    fun x hx => (get_col_some _ _ _ hx).2
  have h4 : ((resolveRoles t).brandLogo.toList ++ remaining_cols t (resolveRoles t)).Nodup := by
    refine nodup_optHead _ _ hrem (fun x hx => ?_)
    exact not_mem_remaining t _ x (by simp [preserve_cols, hx])
  have h3 : ((resolveRoles t).brand.toList ++ ((resolveRoles t).brandLogo.toList
      ++ remaining_cols t (resolveRoles t))).Nodup := by
    refine nodup_optHead _ _ h4 (fun x hx => ?_)
    intro hmem
    rcases List.mem_append.mp hmem with hm | hm
    · rcases Option.mem_toList.mp hm with hbl
      have hbl' : (resolveRoles t).brandLogo = some x := hbl
      exact variant_ne hx hbl' (by decide) rfl
    · exact not_mem_remaining t _ x (by simp [preserve_cols, hx]) hm
  have h2 : ((resolveRoles t).countryFlag.toList ++ ((resolveRoles t).brand.toList
      ++ ((resolveRoles t).brandLogo.toList ++ remaining_cols t (resolveRoles t)))).Nodup := by
    refine nodup_optHead _ _ h3 (fun x hx => ?_)
    intro hmem
    rcases List.mem_append.mp hmem with hm | hm
    · have hb : (resolveRoles t).brand = some x := Option.mem_toList.mp hm
      exact variant_ne hx hb (by decide) rfl
    · rcases List.mem_append.mp hm with hm' | hm'
      · have hb : (resolveRoles t).brandLogo = some x := Option.mem_toList.mp hm'
        exact variant_ne hx hb (by decide) rfl
      · exact not_mem_remaining t _ x (by simp [preserve_cols, hx]) hm'
  have h1 : ((resolveRoles t).country.toList ++ ((resolveRoles t).countryFlag.toList
      ++ ((resolveRoles t).brand.toList ++ ((resolveRoles t).brandLogo.toList
        ++ remaining_cols t (resolveRoles t))))).Nodup := by
    refine nodup_optHead _ _ h2 (fun x hx => ?_)
    intro hmem
    rcases List.mem_append.mp hmem with hm | hm
    · have hb : (resolveRoles t).countryFlag = some x := Option.mem_toList.mp hm
      exact variant_ne hx hb (by decide) rfl
    · rcases List.mem_append.mp hm with hm' | hm'
      · have hb : (resolveRoles t).brand = some x := Option.mem_toList.mp hm'
        exact variant_ne hx hb (by decide) rfl
      · rcases List.mem_append.mp hm' with hm'' | hm''
        · have hb : (resolveRoles t).brandLogo = some x := Option.mem_toList.mp hm''
          exact variant_ne hx hb (by decide) rfl
        · exact not_mem_remaining t _ x (by simp [preserve_cols, hx]) hm''
  refine ⟨?_, ?_, ?_⟩
  · rw [map_fst_ordered_params]
    simpa [List.append_assoc] using h1
  · intro c hc
    rw [map_fst_ordered_params] at hc
    simp only [List.mem_append] at hc
    rcases hc with ((((hc | hc) | hc) | hc) | hc)
    · exact (get_col_some _ _ _ (Option.mem_toList.mp hc)).1
    · exact (get_col_some _ _ _ (Option.mem_toList.mp hc)).1
    · exact (get_col_some _ _ _ (Option.mem_toList.mp hc)).1
    · exact (get_col_some _ _ _ (Option.mem_toList.mp hc)).1
    · exact hremcols c hc
  · exact map_fst_ordered_params t (resolveRoles t)

/-- Witness for the amended C5 on the demo table. -/
theorem c5_amended_witness :
    tDemo.cols.Nodup
    ∧ ((ordered_params tDemo (resolveRoles tDemo)).map Prod.fst).Nodup :=
  ⟨by decide, (c5_amended tDemo (by decide)).1⟩

theorem sep_inj : ∀ (a b u v : List Char), '-' ∉ a → '-' ∉ b →
    a ++ ' ' :: '-' :: ' ' :: u = b ++ ' ' :: '-' :: ' ' :: v → a = b ∧ u = v := by
  intro a
  induction a with
  | nil =>
    intro b u v _ hb h
    cases b with
    | nil => simpa using h
    | cons y b' =>
      simp only [List.nil_append, List.cons_append, List.cons.injEq] at h
      rcases h with ⟨hy, h2⟩
      cases b' with
      | nil => simp at h2
      | cons z b'' =>
        simp only [List.cons_append, List.cons.injEq] at h2
        have hz : ('-' : Char) ∈ y :: z :: b'' := by
          simp only [List.mem_cons]
          exact Or.inr (Or.inl h2.1)
        exact absurd hz hb
  | cons x a' ih =>
    intro b u v ha hb h
    cases b with
    | nil =>
      simp only [List.cons_append, List.nil_append, List.cons.injEq] at h
      rcases h with ⟨hx, h2⟩
      cases a' with
      | nil => simp at h2
      | cons z a'' =>
        simp only [List.cons_append, List.cons.injEq] at h2
        have hz : ('-' : Char) ∈ x :: z :: a'' := by
          simp only [List.mem_cons]
          exact Or.inr (Or.inl h2.1.symm)
        exact absurd hz ha
    | cons y b' =>
      simp only [List.cons_append, List.cons.injEq] at h
      rcases h with ⟨hxy, h2⟩
      have ha' : '-' ∉ a' := fun hm => ha (List.mem_cons_of_mem _ hm)
      have hb' : '-' ∉ b' := fun hm => hb (List.mem_cons_of_mem _ hm)
      rcases ih b' u v ha' hb' h2 with ⟨h1, h3⟩
      exact ⟨by rw [hxy, h1], h3⟩

theorem field_name_inj (l₁ l₂ c₁ c₂ : String)
    (h₁ : '-' ∉ l₁.data) (h₂ : '-' ∉ l₂.data)
    (h : l₁ ++ " - " ++ c₁ = l₂ ++ " - " ++ c₂) : l₁ = l₂ ∧ c₁ = c₂ := by
  have hd : l₁.data ++ ' ' :: '-' :: ' ' :: c₁.data
      = l₂.data ++ ' ' :: '-' :: ' ' :: c₂.data := by
    have := congrArg String.data h
    simpa [List.append_assoc] using this
  rcases sep_inj _ _ _ _ h₁ h₂ hd with ⟨hl, hc⟩
  exact ⟨String.ext hl, String.ext hc⟩

theorem mem_exportFieldsAux (t : Table) :
    ∀ (slots : List (Sel × Option Row)) (i : Nat) (f : String),
      f ∈ exportFieldsAux t i slots →
      ∃ l ∈ matchedLabels i slots, ∃ c ∈ t.cols, f = l ++ " - " ++ c := by
  intro slots
  induction slots with
  | nil => intro i f h; simp [exportFieldsAux] at h
  | cons p rest ih =>
    rcases p with ⟨sel, r⟩
    intro i f h
    cases r with
    | none =>
      rw [exportFieldsAux] at h
      simp only [exportFieldsSlot, List.nil_append] at h
      rcases ih (i + 1) f h with ⟨l, hl, c, hc, hf⟩
      exact ⟨l, by simp [matchedLabels, hl], c, hc, hf⟩
    | some row =>
      rw [exportFieldsAux] at h
      rcases List.mem_append.mp h with hm | hm
      · simp only [exportFieldsSlot, List.mem_map] at hm
        rcases hm with ⟨c, hc, hf⟩
        exact ⟨exportLabel i sel, by simp [matchedLabels], c, hc, hf.symm⟩
      · rcases ih (i + 1) f hm with ⟨l, hl, c, hc, hf⟩
        exact ⟨l, by simp [matchedLabels, hl], c, hc, hf⟩

theorem exportFields_nodup (t : Table) (hcols : t.cols.Nodup) :
    ∀ (slots : List (Sel × Option Row)) (i : Nat),
      (matchedLabels i slots).Nodup →
      (∀ l ∈ matchedLabels i slots, '-' ∉ l.data) →
      (exportFieldsAux t i slots).Nodup := by
  intro slots
  induction slots with
  | nil => intro i _ _; simp [exportFieldsAux]
  | cons p rest ih =>
    rcases p with ⟨sel, r⟩
    intro i hnd hfree
    cases r with
    | none =>
      rw [exportFieldsAux]
      simp only [exportFieldsSlot, List.nil_append]
      exact ih (i + 1) (by simpa [matchedLabels] using hnd)
        (by simpa [matchedLabels] using hfree)
    | some row =>
      rw [exportFieldsAux]
      have hnd2 : (matchedLabels (i + 1) rest).Nodup := by
        have h := hnd; simp only [matchedLabels, List.nodup_cons] at h; exact h.2
      have hnotin : exportLabel i sel ∉ matchedLabels (i + 1) rest := by
        have h := hnd; simp only [matchedLabels, List.nodup_cons] at h; exact h.1
      have hfree0 : '-' ∉ (exportLabel i sel).data := hfree _ (by simp [matchedLabels])
      have hfree2 : ∀ l ∈ matchedLabels (i + 1) rest, '-' ∉ l.data :=
        fun l hl => hfree l (by simp [matchedLabels, hl])
      refine List.Nodup.append ?_ (ih (i + 1) hnd2 hfree2) ?_
      · simp only [exportFieldsSlot]
        refine List.Nodup.map_on ?_ hcols
        intro c1 h1 c2 h2 heq
        exact (field_name_inj _ _ _ _ hfree0 hfree0 heq).2
      · intro f hf1 hf2
        simp only [exportFieldsSlot, List.mem_map] at hf1
        rcases hf1 with ⟨c, hc, rfl⟩
        rcases mem_exportFieldsAux t rest (i + 1) _ hf2 with ⟨l, hl, c2, hc2, heq⟩
        have hll := (field_name_inj _ _ _ _ hfree0 (hfree2 l hl) heq).1
        exact hnotin (hll ▸ hl)

/-- Claim C2 is false on the code: two slots that both choose the brand
Acme (both resolving to a matched row) produce identical label prefixes,
so the export's field names collide; the main flow really produces that
export. -/
theorem c2_counterexample :
    exportFieldsAux tDemo 0 [(selUA, some rowUA), (selUA, some rowUA)] =
      ["Acme - Country", "Acme - Brand name", "Acme - Year",
        "Acme - Country", "Acme - Brand name", "Acme - Year"]
    ∧ ¬ (exportFieldsAux tDemo 0 [(selUA, some rowUA), (selUA, some rowUA)]).Nodup
    ∧ run_app tDemo gAll [selUA, selUA] =
        Output.comparison (ordered_params tDemo (resolveRoles tDemo))
          (exportFieldsAux tDemo 0 [(selUA, some rowUA), (selUA, some rowUA)]) := by
  exact ⟨by decide, by decide, by decide⟩

/-- Claim C2 (amended): the exporter's field names are pairwise distinct
provided the matched slots' labels are pairwise distinct and none of them
contains the character `-` (the separator's); this covers any two
competitors with identical underlying column names but distinct brands.
Two matched slots sharing a chosen brand name share a label and collide;
the generated `Competitor_N` fallback cannot restore uniqueness there,
because a slot whose Brand is unset never has a matched row and so
contributes no fields at all. -/
theorem c2_amended (t : Table) (slots : List (Sel × Option Row)) (i : Nat)
    (hcols : t.cols.Nodup) (hnd : (matchedLabels i slots).Nodup)
    (hfree : ∀ l ∈ matchedLabels i slots, '-' ∉ l.data) :
    (exportFieldsAux t i slots).Nodup
    ∧ ∀ (t2 : Table) (R : Roles) (g : GSel) (sel : Sel),
        (resolveSlot t2 R g sel).isSome → sel.brand.isSome := by
  refine ⟨exportFields_nodup t hcols slots i hnd hfree, ?_⟩
  intro t2 R g sel h
  cases hb : sel.brand with
  | some b => rfl
  | none =>
    rw [resolveSlot, chosen_row, hb] at h
    cases R.brand <;> simp at h

/-- Witness for the amended C2: distinct labels Acme and Globex give a
collision-free export. -/
theorem c2_amended_witness :
    (matchedLabels 0 [(selUA, some rowUA), (selUG, some rowUG)]).Nodup
    ∧ (exportFieldsAux tDemo 0 [(selUA, some rowUA), (selUG, some rowUG)]).Nodup := by
  refine ⟨by decide, (c2_amended tDemo [(selUA, some rowUA), (selUG, some rowUG)] 0
    (by decide) (by decide) ?_).1⟩
  intro l hl
  have he : matchedLabels 0 [(selUA, some rowUA), (selUG, some rowUG)] = ["Acme", "Globex"] := by
    decide
  rw [he] at hl
  rcases List.mem_cons.mp hl with rfl | hl
  · decide
  · rcases List.mem_cons.mp hl with rfl | hl
    · decide
    · simp at hl

end MarketApp
